import Mathlib

/-!
# docker-image-tools: `image_export`

A shallow embedding of `cmd/image_export/main.go` (the layer squash loop, the
deletion index query `matchPath`, the layer-count resolution and the error
flow of `imageExport`) together with the properties proved about it.

Go strings are byte sequences; they are modelled as lists of byte values.
-/

namespace ImageExport

/-! ## Strings -/

/-- A Go string: its sequence of bytes. -/
abbrev GoString := List Nat

/-- The bytes of an ASCII literal. -/
def lit (cs : List Char) : GoString := cs.map Char.toNat

/-- The path separator byte, the character '/'. -/
def slash : Nat := 47

/-- Go `strings.HasPrefix(s, pre)`:
`len(s) >= len(pre) && s[:len(pre)] == pre`. -/
def hasPrefix (s pre : GoString) : Bool :=
  decide (pre.length ≤ s.length) && (s.take pre.length == pre)

/-- Go `strings.TrimPrefix(s, pre)`. -/
def trimPrefix (s pre : GoString) : GoString :=
  if hasPrefix s pre then s.drop pre.length else s

/-- Go string comparison `a < b`: bytewise lexicographic order. -/
def strLess : GoString → GoString → Bool
  | [], [] => false
  | [], _ :: _ => true
  | _ :: _, [] => false
  | a :: as, b :: bs =>
    if a < b then true else if b < a then false else strLess as bs

/-- Insertion of one string into a list sorted by `strLess`. -/
def insertSorted (x : GoString) : List GoString → List GoString
  | [] => [x]
  | y :: ys => if strLess y x then y :: insertSorted x ys else x :: y :: ys

/-- Go `sort.Strings`: the list rearranged into increasing bytewise order.
Strings that compare equal are identical, so the result does not depend on
the sorting algorithm; insertion sort is used here. -/
def sortStrings (l : List GoString) : List GoString :=
  l.foldr insertSorted []

/-- A list of strings is in (non-strict) increasing order. -/
def isSorted : List GoString → Bool
  | [] => true
  | [_] => true
  | a :: b :: rest => !strLess b a && isSorted (b :: rest)

/-! ## The deletion index query `matchPath` -/

/-- Result of running a loop of the program. -/
inductive Outcome where
  /-- The function returned the given value. -/
  | ret (b : Bool)
  /-- An index expression was out of range (a Go run-time panic). -/
  | indexPanic
  /-- The iteration budget of the model ran out before the loop ended. -/
  | noFuel
  deriving DecidableEq, Repr

/-- The test made on `entry := paths[pos]` inside the loop of `matchPath`:
`some true` when the function returns `true`, `some false` when control falls
through to the comparison, `none` when `path[len(entry)]` is out of range. -/
def prefixCheck (path entry : GoString) : Option Bool :=
  if hasPrefix path entry then
    if entry.length = path.length then some true
    else
      match path[entry.length]? with
      | none => none
      | some c => some (decide (c = slash))
  else some false

/-- The `for` loop of `matchPath`, one iteration per unit of fuel, started with
the values of `low`, `high` and `pos` at the top of an iteration. The loop
keeps `low ≤ pos < high`, so the subtractions never go below zero and this loop
on natural numbers agrees with `matchPathLoopInt`, the same loop on Go `int`
values (`matchPathLoopInt_eq`). -/
def matchPathLoop (path : GoString) (paths : List GoString) :
    Nat → Nat → Nat → Nat → Outcome
  | 0, _, _, _ => Outcome.noFuel
  | fuel + 1, low, high, pos =>
    match paths[pos]? with
    | none => Outcome.indexPanic
    | some entry =>
      match prefixCheck path entry with
      | none => Outcome.indexPanic
      | some true => Outcome.ret true
      | some false =>
        if strLess path entry then
          -- high = pos; pos = low + (pos - low) / 2
          if low + (pos - low) / 2 = pos then Outcome.ret false
          else matchPathLoop path paths fuel low pos (low + (pos - low) / 2)
        else
          -- low = pos; pos = pos + (high - pos) / 2
          if pos = pos + (high - pos) / 2 then Outcome.ret false
          else matchPathLoop path paths fuel pos high (pos + (high - pos) / 2)

/-- The function `matchPath` run with an iteration budget. -/
def matchPathRun (fuel : Nat) (path : GoString) (paths : List GoString) : Outcome :=
  if paths.length = 0 then Outcome.ret false
  else matchPathLoop path paths fuel 0 paths.length ((paths.length - 0) / 2)

/-- The function `matchPath` as used by the squash loop. The budget
`2 * len(paths) + 2` is never exhausted and no index is out of range
(`matchPathRun_returns`), so the default branch is never taken. -/
def matchPath (path : GoString) (paths : List GoString) : Bool :=
  match matchPathRun (2 * paths.length + 2) path paths with
  | Outcome.ret b => b
  | _ => false

/-- The `for` loop of `matchPath` with `low`, `high` and `pos` as Go `int`
values: `paths[pos]` panics when `pos < 0` or `pos >= len(paths)`, and `/` is
Go's division, which truncates toward zero. All values stay between 0 and
`len(paths)`, so 64-bit arithmetic does not overflow. -/
def matchPathLoopInt (path : GoString) (paths : List GoString) :
    Nat → Int → Int → Int → Outcome
  | 0, _, _, _ => Outcome.noFuel
  | fuel + 1, low, high, pos =>
    if pos < 0 then Outcome.indexPanic
    else
      match paths[pos.toNat]? with
      | none => Outcome.indexPanic
      | some entry =>
        match prefixCheck path entry with
        | none => Outcome.indexPanic
        | some true => Outcome.ret true
        | some false =>
          if strLess path entry then
            if low + Int.tdiv (pos - low) 2 = pos then Outcome.ret false
            else matchPathLoopInt path paths fuel low pos (low + Int.tdiv (pos - low) 2)
          else
            if pos = pos + Int.tdiv (high - pos) 2 then Outcome.ret false
            else matchPathLoopInt path paths fuel pos high (pos + Int.tdiv (high - pos) 2)

/-- The function `matchPath` with Go `int` variables, run with an iteration budget. -/
def matchPathRunInt (fuel : Nat) (path : GoString) (paths : List GoString) : Outcome :=
  if (paths.length : Int) = 0 then Outcome.ret false
  else matchPathLoopInt path paths fuel 0 (paths.length : Int)
    (Int.tdiv ((paths.length : Int) - 0) 2)

/-- The matching rule of the deletion index: `e` equals `path`, or `e` is a
proper prefix of `path` and the byte of `path` right after `e` is '/'. -/
def masks (e path : GoString) : Prop :=
  e = path ∨ (e <+: path ∧ e.length < path.length ∧ path[e.length]? = some slash)

instance masksDecidable (e path : GoString) : Decidable (masks e path) := by
  unfold masks; infer_instance

/-! ## Paths (Go `path/filepath` on Unix) -/

/-- The byte of the character '.'. -/
def dot : Nat := 46

/-- The pieces of a path between its '/' bytes (`"a//b"` gives `a`, empty, `b`). -/
def splitSlash : GoString → List GoString
  | [] => [[]]
  | c :: cs =>
    match splitSlash cs with
    | [] => [[]]
    | w :: ws => if c = slash then [] :: w :: ws else (c :: w) :: ws

/-- The element pass of Go `filepath.Clean`: empty and `.` elements are dropped,
a `..` element removes the last real element kept so far, or is kept itself
when there is none and the path is not rooted. `stack` holds the elements kept
so far, the last one first. -/
def cleanElems (rooted : Bool) : List GoString → List GoString → List GoString
  | stack, [] => stack.reverse
  | stack, c :: cs =>
    if c = [] ∨ c = [dot] then cleanElems rooted stack cs
    else if c = [dot, dot] then
      match stack with
      | [] => if rooted then cleanElems rooted [] cs else cleanElems rooted [[dot, dot]] cs
      | top :: below =>
        if top = [dot, dot] then cleanElems rooted ([dot, dot] :: top :: below) cs
        else cleanElems rooted below cs
    else cleanElems rooted (c :: stack) cs

/-- Go `filepath.Clean` (Unix: no volume names, separator '/'). -/
def filepathClean (path : GoString) : GoString :=
  if path = [] then [dot]
  else
    let rooted := decide (path.head? = some slash)
    let body := List.intercalate [slash] (cleanElems rooted [] (splitSlash path))
    if rooted then slash :: body
    else if body = [] then [dot] else body

/-- The part of a path after its last '/' (the whole path when it has none). -/
def lastElem (path : GoString) : GoString :=
  (path.reverse.takeWhile (fun c => decide (c ≠ slash))).reverse

/-- Go `filepath.Base`: the last element of the path, trailing slashes removed
first; `.` for the empty path and `/` for a path of slashes only. -/
def filepathBase (path : GoString) : GoString :=
  if path = [] then [dot]
  else
    let stripped := (path.reverse.dropWhile (fun c => decide (c = slash))).reverse
    let base := lastElem stripped
    if base = [] then [slash] else base

/-- Go `filepath.Dir`: `Clean` of the path up to and including its last '/'. -/
def filepathDir (path : GoString) : GoString :=
  filepathClean (path.take (path.length - (lastElem path).length))

/-- Go `filepath.Join`: the elements from the first non-empty one on, joined with
'/' and cleaned; the empty string when all elements are empty. -/
def filepathJoin : List GoString → GoString
  | [] => []
  | e :: es =>
    if e = [] then filepathJoin es
    else filepathClean (List.intercalate [slash] (e :: es))

/-! ## The squash loop of `imageExport` -/

/-- The marker prefix `".wh."` of whiteout entries. -/
def whPrefix : GoString := lit ['.', 'w', 'h', '.']

/-- A tar header: the entry name, and `Info` standing for all its other
fields (mode, ownership, size, link target, ...). -/
structure Header where
  Name : GoString
  Info : Nat
  deriving DecidableEq, Repr

/-- An archive entry: its header and its content bytes. -/
structure Entry where
  header : Header
  content : GoString
  deriving DecidableEq, Repr

/-- The variables of the squash loop: the sorted deletion index, the keys of
the `existingPaths` map, and the entries written to the output archive so far,
in the order written. -/
structure SquashState where
  deletedPaths : List GoString
  existingPaths : List GoString
  written : List Entry
  deriving DecidableEq, Repr

/-- The state before the first layer is read. -/
def SquashState.init : SquashState := ⟨[], [], []⟩

/-- The path deleted by a whiteout entry named `name`:
`filepath.Join(filepath.Dir(name), strings.TrimPrefix(base, ".wh."))`. -/
def whiteoutTarget (name : GoString) : GoString :=
  filepathJoin [filepathDir name, trimPrefix (filepathBase name) whPrefix]

/-- The entry name is a whiteout marker: its base name starts with `".wh."`. -/
def isWhiteout (name : GoString) : Bool :=
  hasPrefix (filepathBase name) whPrefix

/-- One iteration of the inner loop of `imageExport` (lines 212-235) on a run
where writing to the output archive does not fail; `exportEntry` is the same
step with the write errors, and agrees with this one when there are none
(`exportEntry_quiet`). -/
def squashEntry (st : SquashState) (e : Entry) : SquashState :=
  if matchPath e.header.Name st.deletedPaths then st
  else if isWhiteout e.header.Name then
    { st with deletedPaths := sortStrings (st.deletedPaths ++ [whiteoutTarget e.header.Name]) }
  else if e.header.Name ∈ st.existingPaths then st
  else
    { st with existingPaths := e.header.Name :: st.existingPaths,
              written := st.written ++ [e] }

/-- The inner loop over the entries of one layer, in their archive order. -/
def squashLayer (st : SquashState) (layer : List Entry) : SquashState :=
  layer.foldl squashEntry st

/-- The outer loop over the selected layers, given newest first (the order in
which the loop visits them), on a run without I/O failure. -/
def squashLayers (st : SquashState) (layers : List (List Entry)) : SquashState :=
  layers.foldl squashLayer st

/-- The output archive of the squash of the selected layers (newest first). -/
def squash (layers : List (List Entry)) : List Entry :=
  (squashLayers SquashState.init layers).written

/-- The names of a list of entries. -/
def names (es : List Entry) : List GoString := es.map (fun e => e.header.Name)

/-! ## Errors and options -/

/-- The messages built with `fmt.Errorf` in `imageExport`. -/
inductive Message where
  /-- The text `"%s has unexpected format"`. -/
  | unexpectedFormat (manifestPath : GoString)
  /-- The text `"docker inspect returned %d images want 2"`. -/
  | inspectCount (n : Nat)
  /-- The text `"docker inspect image %s has no layers"`. -/
  | noLayers (image : GoString)
  /-- The text `"image %s is not derived from image %s"`. -/
  | notDerived (image baseImage : GoString)
  /-- The text `"image %s is the same as %s"`. -/
  | sameAs (image baseImage : GoString)
  deriving DecidableEq, Repr

/-- A non-nil Go `error` value. -/
inductive GoError where
  /-- An error reported by the operating system, a library or a child process. -/
  | external (code : Nat)
  /-- An error made with `fmt.Errorf`. -/
  | errorf (m : Message)
  /-- An error wrapped by `LError`, which prepends the file and line of its caller. -/
  | located (line : Nat) (cause : GoError)
  deriving DecidableEq, Repr

/-- The function `LError` called from the given line of `main.go`. -/
def LError (line : Nat) (err : GoError) : GoError := GoError.located line err

/-- Why a run of `imageExport` stops before its last statement. -/
inductive Stop where
  /-- A `return` statement with the given non-nil error. -/
  | fail (err : GoError)
  /-- A run-time panic (index out of range). -/
  | panic
  deriving DecidableEq, Repr

/-- The struct `Options`. -/
structure Options where
  Quiet : Bool
  BaseImage : GoString
  SaveDir : GoString
  LayerCount : Int
  deriving DecidableEq, Repr

/-- The struct `InspectStruct`, with `RootFS.Layers` as `Layers`. -/
structure InspectStruct where
  Layers : List GoString
  RepoTags : List GoString
  deriving DecidableEq, Repr

/-- The struct `ManifestStruct`. -/
structure ManifestStruct where
  Layers : List GoString
  deriving DecidableEq, Repr

/-- The function `NameHasTag`: `strings.Contains(name, ":")`. -/
def NameHasTag (name : GoString) : Bool := decide (58 ∈ name)

/-- The name with `":latest"` appended when it has no tag. -/
def withTag (name : GoString) : GoString :=
  if NameHasTag name then name else name ++ lit [':', 'l', 'a', 't', 'e', 's', 't']

/-! ## Layer selection -/

/-- A Go `map[string][]string` as its list of bindings, the latest first. -/
abbrev LayerMap := List (GoString × List GoString)

/-- The map lookup `m[key]`: the nil slice when the key is absent. -/
def LayerMap.lookup (m : LayerMap) (key : GoString) : List GoString :=
  match m.find? (fun kv => decide (kv.1 = key)) with
  | some kv => kv.2
  | none => []

/-- The loop filling `layers` from `inspectOutput` (lines 152-157), where `ids`
lists the values of `inspectOutputId[i]` from the current index on. -/
def fillLayers : List InspectStruct → List GoString → LayerMap → Except Stop LayerMap
  | [], _, m => Except.ok m
  | inspect :: rest, ids, m =>
    if inspect.Layers.length = 0 then
      Except.error (Stop.fail (LError 154 (GoError.errorf (Message.noLayers ids.headI))))
    else fillLayers rest ids.tail ((ids.headI, inspect.Layers) :: m)

/-- The loop counting common layers (lines 161-166): `i` and `nCommon` are the
values at the top of the iteration over the rest of `layers[opt.BaseImage]`;
`none` when `layers[image][i]` is out of range. -/
def commonLoop (imageLayers : List GoString) : List GoString → Nat → Nat → Option Nat
  | [], _, nCommon => some nCommon
  | layer :: rest, i, nCommon =>
    match imageLayers[i]? with
    | none => none
    | some other =>
      if layer ≠ other then some nCommon
      else commonLoop imageLayers rest (i + 1) (nCommon + 1)

/-- Lines 158-177: the layer count derived from the two identifier lists
`layers[opt.BaseImage]` and `layers[image]`. -/
def deriveCount (image baseImage : GoString) (baseLayers imageLayers : List GoString) :
    Except Stop Int :=
  match commonLoop imageLayers baseLayers 0 0 with
  | none => Except.error Stop.panic
  | some nCommon =>
    let nDiff : Int := (imageLayers.length : Int) - (nCommon : Int)
    if nCommon = 0 then
      Except.error (Stop.fail (LError 169 (GoError.errorf (Message.notDerived image baseImage))))
    else if nDiff = 0 then
      Except.error (Stop.fail (LError 172 (GoError.errorf (Message.sameAs image baseImage))))
    else Except.ok nDiff

/-- Lines 144-177: the base-image rule applied to the decoded output of
`docker inspect`; `baseImage` is `opt.BaseImage` after the tag was added. -/
def baseImageCount (image baseImage : GoString) (inspectOutput : List InspectStruct) :
    Except Stop Int :=
  if inspectOutput.length ≠ 2 then
    Except.error (Stop.fail (LError 145 (GoError.errorf (Message.inspectCount inspectOutput.length))))
  else
    match fillLayers inspectOutput [baseImage, image] [] with
    | Except.error s => Except.error s
    | Except.ok layers =>
      deriveCount image baseImage (layers.lookup baseImage) (layers.lookup image)

/-- Lines 180-182: the explicit count replaces the count found so far. -/
def applyLayerCount (opt : Options) (layerCount : Int) : Int :=
  if opt.LayerCount ≠ 0 then opt.LayerCount else layerCount

/-- Lines 115-182 on a run where `docker inspect` itself does not fail and
prints `inspectOutput`: the value of `layerCount` at the start of the squash.
`image` is the image name after the tag was added. -/
def resolveLayerCount (manifest : ManifestStruct) (image : GoString) (opt : Options)
    (inspectOutput : List InspectStruct) : Except Stop Int :=
  if opt.BaseImage ≠ [] then
    match baseImageCount image (withTag opt.BaseImage) inspectOutput with
    | Except.error s => Except.error s
    | Except.ok nDiff => Except.ok (applyLayerCount opt nDiff)
  else Except.ok (applyLayerCount opt (manifest.Layers.length : Int))

/-- Arithmetic of the 64-bit Go `int`: the value wrapped into `[-2^63, 2^63)`. -/
def wrap64 (x : Int) : Int := (x + 2 ^ 63) % 2 ^ 64 - 2 ^ 63

/-- Line 195: `firstLyr := len(manifest.Layers) - layerCount`. -/
def firstLyr (manifest : ManifestStruct) (layerCount : Int) : Int :=
  wrap64 ((manifest.Layers.length : Int) - layerCount)

/-- The layers visited by `for i := len(manifest.Layers) - 1; i >= firstLyr; i--`
started at `i = n - 1`, in the order visited; a panic when `manifest.Layers[i]`
is evaluated with `i = -1`. -/
def visitLayers (layers : List GoString) (first : Int) : Nat → Except Stop (List GoString)
  | 0 => if (-1 : Int) ≥ first then Except.error Stop.panic else Except.ok []
  | n + 1 =>
    if (n : Int) ≥ first then
      match layers[n]? with
      | none => Except.error Stop.panic
      | some layerTar =>
        match visitLayers layers first n with
        | Except.error s => Except.error s
        | Except.ok rest => Except.ok (layerTar :: rest)
    else Except.ok []

/-- The layer archives read by the squash for a given `layerCount`, newest first. -/
def selectedLayers (manifest : ManifestStruct) (layerCount : Int) : Except Stop (List GoString) :=
  visitLayers manifest.Layers (firstLyr manifest layerCount) manifest.Layers.length

/-! ## The whole of `imageExport`, with the outcome of every external step -/

/-- What a layer archive yields when read: its entries, then end of file
(`readErr = none`) or a read error. -/
structure LayerFile where
  entries : List Entry
  readErr : Option GoError

/-- The world `imageExport` runs in: for each call that can fail, the error it
returns (`none` for nil) or the value it produces. -/
structure Env where
  /-- The call `ioutil.TempDir`. -/
  tempDir : Except GoError GoString
  /-- The call `os.Mkdir(saveDir, 0770)`. -/
  mkdir : GoString → Option GoError
  /-- The call `cmd.StdoutPipe()` of `docker save`. -/
  savePipe : Option GoError
  /-- The call `tarCmd.Start()`. -/
  tarStart : Option GoError
  /-- The call `cmd.Start()` of `docker save`. -/
  saveStart : Option GoError
  /-- The call `cmd.Wait()` of `docker save`. -/
  saveWait : Option GoError
  /-- The call `tarCmd.Wait()`. -/
  tarWait : Option GoError
  /-- The call `os.Open(manifestPath)`. -/
  openManifest : GoString → Option GoError
  /-- Decoding of the manifest file at the given path. -/
  decodeManifest : GoString → Except GoError (List ManifestStruct)
  /-- The call `cmd.StdoutPipe()` of `docker inspect`. -/
  inspectPipe : Option GoError
  /-- The call `cmd.Start()` of `docker inspect`. -/
  inspectStart : Option GoError
  /-- Decoding of the output of `docker inspect --type image base image`. -/
  inspectDecode : GoString → GoString → Except GoError (List InspectStruct)
  /-- The call `cmd.Wait()` of `docker inspect`. -/
  inspectWait : Option GoError
  /-- The call `os.Create(tarPath)`. -/
  create : GoString → Option GoError
  /-- The call `os.Open` on a layer archive, and what reading it yields. -/
  openLayer : GoString → Except GoError LayerFile
  /-- The call `tarWtr.WriteHeader(header)`, given the entries written before. -/
  writeHeader : List Entry → Header → Option GoError
  /-- The call `io.Copy(tarWtr, tarRdr)`, given the entries written before. -/
  copy : List Entry → Entry → Option GoError
  /-- The call `tarWtr.Close()`. -/
  closeWriter : Option GoError
  /-- The call `tarFile.Close()`. -/
  closeFile : Option GoError

/-- The statement `if err != nil { return LError(err) }` at the given line. -/
def check (line : Nat) : Option GoError → Except Stop Unit
  | none => Except.ok ()
  | some err => Except.error (Stop.fail (LError line err))

/-- The statement `if err != nil { LError(err) }`: the wrapped error is built
and dropped, and control goes on to the next statement. -/
def checkDropped (line : Nat) : Option GoError → Except Stop Unit
  | none => Except.ok ()
  | some err => let _ := LError line err; Except.ok ()

/-- Lines 62-97: the directory holding the saved image. -/
def saveImage (env : Env) (opt : Options) (tempDir : GoString) : Except Stop GoString :=
  if opt.SaveDir ≠ [] then Except.ok opt.SaveDir
  else do
    let saveDir := filepathJoin [tempDir, lit ['s', 'a', 'v', 'e']]
    check 68 (env.mkdir saveDir)
    check 78 env.savePipe
    check 86 env.tarStart
    check 89 env.saveStart
    check 92 env.saveWait
    check 95 env.tarWait
    pure saveDir

/-- The file name `"manifest.json"`. -/
def manifestName : GoString :=
  lit ['m', 'a', 'n', 'i', 'f', 'e', 's', 't', '.', 'j', 's', 'o', 'n']

/-- Lines 99-113: the manifest of the saved image. -/
def readManifest (env : Env) (saveDir : GoString) : Except Stop ManifestStruct := do
  let manifestPath := filepathJoin [saveDir, manifestName]
  check 102 (env.openManifest manifestPath)
  match env.decodeManifest manifestPath with
  | Except.error err => Except.error (Stop.fail (LError 107 err))
  | Except.ok manifestFile =>
    match manifestFile with
    | [manifest] => pure manifest
    | _ => Except.error (Stop.fail (LError 111 (GoError.errorf (Message.unexpectedFormat manifestPath))))

/-- Lines 115-182: the value of `layerCount` at the start of the squash. -/
def layerCountOf (env : Env) (manifest : ManifestStruct) (image : GoString) (opt : Options) :
    Except Stop Int :=
  if opt.BaseImage ≠ [] then do
    let baseImage := withTag opt.BaseImage
    check 132 env.inspectPipe
    check 135 env.inspectStart
    match env.inspectDecode baseImage image with
    | Except.error err => Except.error (Stop.fail (LError 139 err))
    | Except.ok inspectOutput =>
      check 142 env.inspectWait
      let nDiff ← baseImageCount image baseImage inspectOutput
      pure (applyLayerCount opt nDiff)
  else pure (applyLayerCount opt (manifest.Layers.length : Int))

/-- One iteration of the inner loop (lines 205-235) on an entry that was read. -/
def exportEntry (env : Env) (st : SquashState) (e : Entry) : Except Stop SquashState :=
  if matchPath e.header.Name st.deletedPaths then pure st
  else if isWhiteout e.header.Name then
    pure { st with deletedPaths := sortStrings (st.deletedPaths ++ [whiteoutTarget e.header.Name]) }
  else if e.header.Name ∈ st.existingPaths then pure st
  else do
    check 230 (env.writeHeader st.written e.header)
    check 234 (env.copy st.written e)
    pure { st with existingPaths := e.header.Name :: st.existingPaths,
                   written := st.written ++ [e] }

/-- The inner loop (lines 204-236) over what the layer archive yields. -/
def exportEntries (env : Env) (readErr : Option GoError) :
    SquashState → List Entry → Except Stop SquashState
  | st, [] => do
    check 209 readErr
    pure st
  | st, e :: rest => do
    let st1 ← exportEntry env st e
    exportEntries env readErr st1 rest

/-- The outer loop (lines 197-238) started at `i = n - 1`. -/
def exportLayers (env : Env) (saveDir : GoString) (layers : List GoString) (first : Int) :
    Nat → SquashState → Except Stop SquashState
  | 0, st => if (-1 : Int) ≥ first then Except.error Stop.panic else pure st
  | n + 1, st =>
    if (n : Int) ≥ first then
      match layers[n]? with
      | none => Except.error Stop.panic
      | some layerTar =>
        match env.openLayer (filepathJoin [saveDir, layerTar]) with
        | Except.error err => Except.error (Stop.fail (LError 201 err))
        | Except.ok lyrFile => do
          let st1 ← exportEntries env lyrFile.readErr st lyrFile.entries
          exportLayers env saveDir layers first n st1
    else pure st

/-- The body of `imageExport`; `Except.ok` is reaching `return nil` on line 245,
with the entries written to the output archive. -/
def exportBody (env : Env) (image tarPath : GoString) (opt : Options) :
    Except Stop (List Entry) := do
  let tempDir ←
    match env.tempDir with
    | Except.error err => Except.error (Stop.fail (LError 50 err))
    | Except.ok dir => pure dir
  let image := withTag image
  let saveDir ← saveImage env opt tempDir
  let manifest ← readManifest env saveDir
  let layerCount ← layerCountOf env manifest image opt
  check 189 (env.create tarPath)
  let st ← exportLayers env saveDir manifest.Layers (firstLyr manifest layerCount)
    manifest.Layers.length SquashState.init
  checkDropped 240 env.closeWriter
  checkDropped 243 env.closeFile
  pure st.written

/-- How a call of `imageExport` ends. -/
inductive Returned where
  /-- The statement `return nil`. -/
  | nil
  /-- A `return` with a non-nil error. -/
  | error (err : GoError)
  /-- A run-time panic. -/
  | panic
  deriving DecidableEq, Repr

/-- The function `imageExport`: the error value it returns. -/
def imageExport (env : Env) (image tarPath : GoString) (opt : Options) : Returned :=
  match exportBody env image tarPath opt with
  | Except.ok _ => Returned.nil
  | Except.error (Stop.fail err) => Returned.error err
  | Except.error Stop.panic => Returned.panic

/-- An environment in which the saved image has the given manifest and layer
archives, `docker inspect` prints `inspectOutput`, and every step succeeds
except that closing the tar writer and the output file return `closeWriter`
and `closeFile`. -/
def quietEnv (manifest : ManifestStruct) (files : GoString → List Entry)
    (inspectOutput : List InspectStruct) (closeWriter closeFile : Option GoError) : Env where
  tempDir := Except.ok (lit ['t', 'm', 'p'])
  mkdir := fun _ => none
  savePipe := none
  tarStart := none
  saveStart := none
  saveWait := none
  tarWait := none
  openManifest := fun _ => none
  decodeManifest := fun _ => Except.ok [manifest]
  inspectPipe := none
  inspectStart := none
  inspectDecode := fun _ _ => Except.ok inspectOutput
  inspectWait := none
  create := fun _ => none
  openLayer := fun p => Except.ok ⟨files p, none⟩
  writeHeader := fun _ _ => none
  copy := fun _ _ => none
  closeWriter := closeWriter
  closeFile := closeFile


/-! ## Invariants and sample inputs -/

/-- The invariant of the squash loop behind uniqueness: the names written are
pairwise distinct and all of them are keys of `existingPaths`. -/
def WrittenOnce (st : SquashState) : Prop :=
  (names st.written).Nodup ∧ ∀ n ∈ names st.written, n ∈ st.existingPaths

/-- The whiteout entry `.wh.a`. -/
def whA : Entry := ⟨⟨lit ['.', 'w', 'h', '.', 'a'], 0⟩, []⟩

/-- The whiteout entry `.wh.a-`. -/
def whADash : Entry := ⟨⟨lit ['.', 'w', 'h', '.', 'a', '-'], 0⟩, []⟩

/-- A file `a/c` with the given header fields and content. -/
def fileAC (info : Nat) (content : GoString) : Entry := ⟨⟨lit ['a', '/', 'c'], info⟩, content⟩

/-- A file `a` with content `x`. -/
def fileA : Entry := ⟨⟨lit ['a'], 1⟩, lit ['x']⟩

/-- The layer identifier `L0`. -/
def idL0 : GoString := lit ['L', '0']

/-- The layer identifier `L1`. -/
def idL1 : GoString := lit ['L', '1']

/-- The layer identifier `L2`. -/
def idL2 : GoString := lit ['L', '2']

/-- The layer identifier `L3`. -/
def idL3 : GoString := lit ['L', '3']

/-- The layer identifier `M0`. -/
def idM0 : GoString := lit ['M', '0']

/-- The image name `img:latest`. -/
def imgName : GoString := lit ['i', 'm', 'g', ':', 'l', 'a', 't', 'e', 's', 't']

/-- The image name `base`. -/
def baseName : GoString := lit ['b', 'a', 's', 'e']

/-- The output path `out.tar`. -/
def outTar : GoString := lit ['o', 'u', 't', '.', 't', 'a', 'r']

/-- A manifest with the four layer archives `l0`, `l1`, `l2`, `l3`. -/
def manifest4 : ManifestStruct :=
  ⟨[lit ['l', '0'], lit ['l', '1'], lit ['l', '2'], lit ['l', '3']]⟩

/-- An inspection answer: `base:latest` has layers `L0, L1`, every other image
`L0, L1, L2, L3`. -/
def dockerFour (name : GoString) : InspectStruct :=
  if name = withTag baseName then ⟨[idL0, idL1], []⟩ else ⟨[idL0, idL1, idL2, idL3], []⟩

/-! ## Theorems -/

/-! ### The deletion index query -/

theorem hasPrefix_iff (s pre : GoString) : hasPrefix s pre = true ↔ pre <+: s := by
  unfold hasPrefix
  rw [Bool.and_eq_true, decide_eq_true_iff, beq_iff_eq]
  constructor
  · rintro ⟨_, h⟩
    rw [List.prefix_iff_eq_take]
    exact h.symm
  · intro h
    exact ⟨h.length_le, (List.prefix_iff_eq_take.mp h).symm⟩

theorem prefixCheck_ne_none (path entry : GoString) : prefixCheck path entry ≠ none := by
  unfold prefixCheck
  split
  · rename_i hp
    split
    · simp
    · rename_i hlen
      have hle : entry.length ≤ path.length := ((hasPrefix_iff _ _).mp hp).length_le
      have hlt : entry.length < path.length := lt_of_le_of_ne hle hlen
      rw [List.getElem?_eq_getElem hlt]
      simp
  · simp

theorem prefixCheck_true_iff (path entry : GoString) :
    prefixCheck path entry = some true ↔ masks entry path := by
  unfold prefixCheck masks
  constructor
  · intro h
    split at h
    · rename_i hp
      have hpre := (hasPrefix_iff _ _).mp hp
      split at h
      · rename_i hlen
        left
        exact hpre.eq_of_length hlen
      · rename_i hlen
        right
        have hlt : entry.length < path.length := lt_of_le_of_ne hpre.length_le hlen
        refine ⟨hpre, hlt, ?_⟩
        rw [List.getElem?_eq_getElem hlt] at h ⊢
        simp at h
        rw [h]
    · simp at h
  · rintro (h | ⟨hpre, hlt, hget⟩)
    · subst h
      have : hasPrefix entry entry = true := (hasPrefix_iff _ _).mpr (List.prefix_refl _)
      simp [this]
    · have : hasPrefix path entry = true := (hasPrefix_iff _ _).mpr hpre
      simp [this, Nat.ne_of_lt hlt, hget]

theorem matchPathLoop_true (path : GoString) (paths : List GoString) :
    ∀ (fuel low high pos : Nat),
      matchPathLoop path paths fuel low high pos = Outcome.ret true →
      ∃ e ∈ paths, masks e path := by
  intro fuel
  induction fuel with
  | zero => intro low high pos h; simp [matchPathLoop] at h
  | succ n ih =>
    intro low high pos h
    unfold matchPathLoop at h
    split at h
    · simp at h
    · rename_i entry hget
      split at h
      · simp at h
      · rename_i hc
        exact ⟨entry, List.getElem?_mem hget, (prefixCheck_true_iff _ _).mp hc⟩
      · split at h
        · split at h
          · simp at h
          · exact ih _ _ _ h
        · split at h
          · simp at h
          · exact ih _ _ _ h

theorem matchPathLoop_returns (path : GoString) (paths : List GoString) :
    ∀ (fuel low high pos : Nat), low ≤ pos → pos < high → high ≤ paths.length →
      2 * (high - low) + (if pos = low then 1 else 0) ≤ fuel →
      ∃ b, matchPathLoop path paths fuel low high pos = Outcome.ret b := by
  intro fuel
  induction fuel with
  | zero =>
    intro low high pos h1 h2 h3 h4
    omega
  | succ n ih =>
    intro low high pos h1 h2 h3 h4
    unfold matchPathLoop
    have hpos : pos < paths.length := lt_of_lt_of_le h2 h3
    rw [List.getElem?_eq_getElem hpos]
    simp only
    cases hc : prefixCheck path paths[pos] with
    | none => exact absurd hc (prefixCheck_ne_none _ _)
    | some b =>
      cases b with
      | true => exact ⟨true, rfl⟩
      | false =>
        simp only
        split
        · split
          · exact ⟨false, rfl⟩
          · rename_i hne
            apply ih
            · omega
            · omega
            · omega
            · split at h4 <;> split <;> omega
        · split
          · exact ⟨false, rfl⟩
          · rename_i hne
            apply ih
            · omega
            · omega
            · omega
            · split at h4 <;> split <;> omega

theorem matchPathRun_returns (path : GoString) (paths : List GoString) :
    ∃ b, matchPathRun (2 * paths.length + 2) path paths = Outcome.ret b := by
  unfold matchPathRun
  split
  · exact ⟨false, rfl⟩
  · rename_i hne
    apply matchPathLoop_returns
    · omega
    · omega
    · omega
    · split <;> omega

theorem matchPath_true (path : GoString) (paths : List GoString)
    (h : matchPath path paths = true) : ∃ e ∈ paths, masks e path := by
  unfold matchPath at h
  split at h
  · rename_i b hb
    subst h
    unfold matchPathRun at hb
    split at hb
    · simp at hb
    · exact matchPathLoop_true _ _ _ _ _ _ hb
  · simp at h

theorem tdiv_two_cast (a b : Nat) (h : b ≤ a) :
    Int.tdiv ((a : Int) - (b : Int)) 2 = (((a - b) / 2 : Nat) : Int) := by
  rw [Int.tdiv_eq_ediv (by omega) (by omega)]
  omega

theorem matchPathLoopInt_eq (path : GoString) (paths : List GoString) :
    ∀ (fuel low high pos : Nat), low ≤ pos → pos < high →
      matchPathLoopInt path paths fuel (low : Int) (high : Int) (pos : Int)
        = matchPathLoop path paths fuel low high pos := by
  intro fuel
  induction fuel with
  | zero => intro low high pos _ _; rfl
  | succ n ih =>
    intro low high pos h1 h2
    unfold matchPathLoopInt matchPathLoop
    rw [if_neg (by omega), Int.toNat_ofNat]
    cases paths[pos]? with
    | none => rfl
    | some entry =>
      simp only
      cases prefixCheck path entry with
      | none => rfl
      | some b =>
        cases b with
        | true => rfl
        | false =>
          simp only
          rw [tdiv_two_cast pos low h1, tdiv_two_cast high pos (Nat.le_of_lt h2)]
          have e1 : (low : Int) + (((pos - low) / 2 : Nat) : Int)
              = ((low + (pos - low) / 2 : Nat) : Int) := by push_cast; rfl
          have e2 : (pos : Int) + (((high - pos) / 2 : Nat) : Int)
              = ((pos + (high - pos) / 2 : Nat) : Int) := by push_cast; rfl
          rw [e1, e2]
          simp only [Nat.cast_inj]
          split
          · split
            · rfl
            · rename_i hne
              exact ih _ _ _ (by omega) (by omega)
          · split
            · rfl
            · rename_i hne
              exact ih _ _ _ (by omega) (by omega)

theorem matchPathRunInt_eq (fuel : Nat) (path : GoString) (paths : List GoString) :
    matchPathRunInt fuel path paths = matchPathRun fuel path paths := by
  unfold matchPathRunInt matchPathRun
  by_cases h : paths.length = 0
  · rw [if_pos (by exact_mod_cast h), if_pos h]
  · rw [if_neg (by exact_mod_cast h), if_neg h]
    have e : Int.tdiv ((paths.length : Int) - 0) 2 = (((paths.length - 0) / 2 : Nat) : Int) := by
      have := tdiv_two_cast paths.length 0 (Nat.zero_le _)
      simpa using this
    rw [e]
    have := matchPathLoopInt_eq path paths fuel 0 paths.length ((paths.length - 0) / 2)
      (Nat.zero_le _) (by omega)
    simpa using this

theorem matchPathLoop_mono (path : GoString) (paths : List GoString) (b : Bool) :
    ∀ (fuel more low high pos : Nat),
      matchPathLoop path paths fuel low high pos = Outcome.ret b →
      matchPathLoop path paths (fuel + more) low high pos = Outcome.ret b := by
  intro fuel
  induction fuel with
  | zero => intro more low high pos h; simp [matchPathLoop] at h
  | succ n ih =>
    intro more low high pos h
    have hs : n + 1 + more = (n + more) + 1 := by omega
    rw [hs]
    unfold matchPathLoop at h ⊢
    cases hget : paths[pos]? with
    | none => rw [hget] at h; simp at h
    | some entry =>
      rw [hget] at h
      simp only at h ⊢
      cases hc : prefixCheck path entry with
      | none => rw [hc] at h; simp at h
      | some c =>
        rw [hc] at h
        cases c with
        | true => exact h
        | false =>
          simp only at h ⊢
          split
          · rename_i hlt
            rw [if_pos hlt] at h
            split
            · rename_i heq
              rw [if_pos heq] at h
              exact h
            · rename_i hne
              rw [if_neg hne] at h
              exact ih _ _ _ _ h
          · rename_i hlt
            rw [if_neg hlt] at h
            split
            · rename_i heq
              rw [if_pos heq] at h
              exact h
            · rename_i hne
              rw [if_neg hne] at h
              exact ih _ _ _ _ h

theorem matchPathRun_eq_matchPath (path : GoString) (paths : List GoString) :
    matchPathRun (2 * paths.length + 2) path paths = Outcome.ret (matchPath path paths) := by
  obtain ⟨b, hb⟩ := matchPathRun_returns path paths
  unfold matchPath
  rw [hb]

theorem matchPathRun_mono (path : GoString) (paths : List GoString) (b : Bool)
    (fuel more : Nat) (h : matchPathRun fuel path paths = Outcome.ret b) :
    matchPathRun (fuel + more) path paths = Outcome.ret b := by
  unfold matchPathRun at h ⊢
  split
  · rename_i h0
    rw [if_pos h0] at h
    exact h
  · rename_i h0
    rw [if_neg h0] at h
    exact matchPathLoop_mono _ _ _ _ _ _ _ _ h

/-! ### The squash loop -/

theorem mem_insertSorted (x y : GoString) (l : List GoString) :
    y ∈ insertSorted x l ↔ y = x ∨ y ∈ l := by
  induction l with
  | nil => simp [insertSorted]
  | cons z zs ih =>
    unfold insertSorted
    split
    · simp only [List.mem_cons, ih]
      tauto
    · simp only [List.mem_cons]

theorem mem_sortStrings (y : GoString) (l : List GoString) :
    y ∈ sortStrings l ↔ y ∈ l := by
  induction l with
  | nil => simp [sortStrings]
  | cons z zs ih =>
    have : sortStrings (z :: zs) = insertSorted z (sortStrings zs) := rfl
    rw [this, mem_insertSorted, ih, List.mem_cons]

theorem squashLayers_eq_join (st : SquashState) (layers : List (List Entry)) :
    squashLayers st layers = squashLayer st layers.flatten := by
  induction layers generalizing st with
  | nil => rfl
  | cons l ls ih =>
    simp only [squashLayers, List.foldl_cons, List.flatten_cons, squashLayer, List.foldl_append] at ih ⊢
    exact ih _

theorem squashEntry_written (st : SquashState) (e : Entry) :
    ∃ rest, (squashEntry st e).written = st.written ++ rest := by
  unfold squashEntry
  split
  · exact ⟨[], by simp⟩
  · split
    · exact ⟨[], by simp⟩
    · split
      · exact ⟨[], by simp⟩
      · exact ⟨[e], rfl⟩

theorem squashLayer_written (st : SquashState) (es : List Entry) :
    ∃ rest, (squashLayer st es).written = st.written ++ rest := by
  induction es generalizing st with
  | nil => exact ⟨[], by simp [squashLayer]⟩
  | cons e es ih =>
    obtain ⟨r1, h1⟩ := squashEntry_written st e
    obtain ⟨r2, h2⟩ := ih (squashEntry st e)
    refine ⟨r1 ++ r2, ?_⟩
    simp only [squashLayer, List.foldl_cons] at h2 ⊢
    rw [h2, h1, List.append_assoc]

theorem squashEntry_writtenOnce (st : SquashState) (e : Entry) (h : WrittenOnce st) :
    WrittenOnce (squashEntry st e) := by
  unfold squashEntry
  split
  · exact h
  · split
    · exact h
    · split
      · exact h
      · rename_i hnew
        obtain ⟨hnd, hsub⟩ := h
        constructor
        · simp only [names, List.map_append, List.map_cons, List.map_nil]
          rw [List.nodup_append]
          refine ⟨hnd, List.nodup_singleton _, ?_⟩
          intro a ha hb
          simp only [List.mem_singleton] at hb
          subst hb
          exact hnew (hsub _ ha)
        · intro n hn
          simp only [names, List.map_append, List.map_cons, List.map_nil, List.mem_append,
            List.mem_singleton] at hn
          rcases hn with hn | hn
          · exact List.mem_cons_of_mem _ (hsub _ hn)
          · subst hn
            exact List.mem_cons_self _ _

theorem squashLayer_writtenOnce (st : SquashState) (es : List Entry) (h : WrittenOnce st) :
    WrittenOnce (squashLayer st es) := by
  induction es generalizing st with
  | nil => exact h
  | cons e es ih => exact ih _ (squashEntry_writtenOnce st e h)

theorem squashLayers_writtenOnce (st : SquashState) (layers : List (List Entry))
    (h : WrittenOnce st) : WrittenOnce (squashLayers st layers) := by
  rw [squashLayers_eq_join]
  exact squashLayer_writtenOnce _ _ h

theorem squashEntry_deleted (st : SquashState) (e : Entry) (p : GoString)
    (hp : p ∈ (squashEntry st e).deletedPaths) :
    p ∈ st.deletedPaths ∨ (isWhiteout e.header.Name = true ∧ p = whiteoutTarget e.header.Name) := by
  unfold squashEntry at hp
  split at hp
  · exact Or.inl hp
  · split at hp
    · rename_i hw
      simp only [mem_sortStrings, List.mem_append, List.mem_singleton] at hp
      rcases hp with hp | hp
      · exact Or.inl hp
      · exact Or.inr ⟨hw, hp⟩
    · split at hp
      · exact Or.inl hp
      · exact Or.inl hp

theorem squashLayer_deleted (st : SquashState) (es : List Entry) (p : GoString)
    (hp : p ∈ (squashLayer st es).deletedPaths) :
    p ∈ st.deletedPaths ∨
      ∃ m ∈ es, isWhiteout m.header.Name = true ∧ p = whiteoutTarget m.header.Name := by
  induction es generalizing st with
  | nil => exact Or.inl hp
  | cons e es ih =>
    rcases ih (squashEntry st e) hp with h | ⟨m, hm, hw, hpm⟩
    · rcases squashEntry_deleted st e p h with h1 | ⟨hw, hpe⟩
      · exact Or.inl h1
      · exact Or.inr ⟨e, List.mem_cons_self _ _, hw, hpe⟩
    · exact Or.inr ⟨m, List.mem_cons_of_mem _ hm, hw, hpm⟩

/-! ### Layer selection -/

theorem commonLoop_append (imageLayers : List GoString) :
    ∀ (base pre suffix : List GoString) (c : Nat), imageLayers = pre ++ base ++ suffix →
      commonLoop imageLayers base pre.length c = some (c + base.length) := by
  intro base
  induction base with
  | nil => intro pre suffix c _; simp [commonLoop]
  | cons b bs ih =>
    intro pre suffix c h
    have hget : imageLayers[pre.length]? = some b := by
      subst h
      rw [List.append_assoc, List.getElem?_append_right (le_refl _)]
      simp
    have hnext := ih (pre ++ [b]) suffix (c + 1) (by simp [h])
    unfold commonLoop
    rw [hget]
    simp only [ne_eq, not_true_eq_false, if_false]
    simp only [List.length_append, List.length_singleton] at hnext
    rw [hnext, List.length_cons]
    congr 1
    omega

theorem deriveCount_extension (image baseImage : GoString) (base derived : List GoString)
    (hk : 1 ≤ base.length) (hpre : base <+: derived) (hlt : base.length < derived.length) :
    deriveCount image baseImage base derived =
      Except.ok ((derived.length : Int) - (base.length : Int)) := by
  obtain ⟨suffix, hs⟩ := hpre
  have hc := commonLoop_append derived base [] suffix 0 (by simp [hs])
  simp only [List.length_nil, Nat.zero_add] at hc
  unfold deriveCount
  rw [hc]
  simp only
  rw [if_neg (by omega), if_neg (by omega)]

theorem wrap64_small (x : Int) (h0 : 0 ≤ x) (h1 : x < 2 ^ 63) : wrap64 x = x := by
  unfold wrap64
  norm_num at h1 ⊢
  omega

theorem visitLayers_take_drop (layers : List GoString) (first : Nat) :
    ∀ n : Nat, first ≤ n → n ≤ layers.length → 
      visitLayers layers (first : Int) n = Except.ok ((layers.take n).drop first).reverse := by
  intro n
  induction n with
  | zero =>
    intro h _
    simp [visitLayers]
    omega
  | succ m ih =>
    intro h1 h2
    unfold visitLayers
    by_cases hm : first ≤ m
    · have hlt : m < layers.length := h2
      rw [if_pos (by exact_mod_cast hm), List.getElem?_eq_getElem hlt]
      simp only
      rw [ih hm (Nat.le_of_lt hlt)]
      simp only
      congr 1
      rw [List.take_succ, List.getElem?_eq_getElem hlt]
      simp only [Option.toList]
      rw [List.drop_append_of_le_length (by simp; omega)]
      simp
    · have he : first = m + 1 := by omega
      rw [if_neg (by omega)]
      subst he
      rw [List.drop_eq_nil_of_le (by simp)]
      rfl

/-! ### The run of `imageExport` when no external step fails -/

theorem exportEntry_quiet (env : Env) (hw : ∀ w h, env.writeHeader w h = none)
    (hc : ∀ w e, env.copy w e = none) (st : SquashState) (e : Entry) :
    exportEntry env st e = Except.ok (squashEntry st e) := by
  unfold exportEntry squashEntry
  split
  · rfl
  · split
    · rfl
    · split
      · rfl
      · rw [hw, hc]
        rfl

theorem exportEntries_quiet (env : Env) (hw : ∀ w h, env.writeHeader w h = none)
    (hc : ∀ w e, env.copy w e = none) (st : SquashState) (es : List Entry) :
    exportEntries env none st es = Except.ok (squashLayer st es) := by
  induction es generalizing st with
  | nil => rfl
  | cons e es ih =>
    unfold exportEntries
    rw [exportEntry_quiet env hw hc]
    exact ih _

theorem exportLayers_quiet (env : Env) (files : GoString → List Entry)
    (hw : ∀ w h, env.writeHeader w h = none) (hc : ∀ w e, env.copy w e = none)
    (ho : ∀ p, env.openLayer p = Except.ok ⟨files p, none⟩)
    (saveDir : GoString) (layers : List GoString) (first : Int) :
    ∀ (n : Nat) (st : SquashState),
      exportLayers env saveDir layers first n st =
        match visitLayers layers first n with
        | Except.error s => Except.error s
        | Except.ok sel =>
          Except.ok (squashLayers st (sel.map (fun l => files (filepathJoin [saveDir, l])))) := by
  intro n
  induction n with
  | zero =>
    intro st
    unfold exportLayers visitLayers
    split <;> rfl
  | succ m ih =>
    intro st
    unfold exportLayers visitLayers
    split
    · cases hget : layers[m]? with
      | none => rfl
      | some layerTar =>
        simp only [ho]
        rw [exportEntries_quiet env hw hc]
        show exportLayers env saveDir layers first m _ = _
        rw [ih]
        cases visitLayers layers first m with
        | error s => rfl
        | ok sel => rfl
    · rfl

/-! ### The claims -/

/-- C1: the index `["a", "a-"]` is sorted and holds `a`, a directory ancestor of
`a/c`, yet `matchPath("a/c", index)` returns false: the search looks at `a-`
only, goes right and stops, so the ancestor entry is missed. -/
theorem matchPath_misses_ancestor :
    isSorted [lit ['a'], lit ['a', '-']] = true ∧
    lit ['a'] ∈ [lit ['a'], lit ['a', '-']] ∧
    masks (lit ['a']) (lit ['a', '/', 'c']) ∧
    matchPath (lit ['a', '/', 'c']) [lit ['a'], lit ['a', '-']] = false := by
  decide

/-- C2: the newer layer holds the whiteout markers `.wh.a` and `.wh.a-`, the
older layer the file `a/c`; the marker `.wh.a` deletes the path `a`, and still
`a/c` from the older layer is written to the output archive. -/
theorem squash_keeps_file_under_deleted_dir :
    isWhiteout whA.header.Name = true ∧
    whiteoutTarget whA.header.Name = lit ['a'] ∧
    lit ['a', '/'] <+: (fileAC 1 []).header.Name ∧
    fileAC 1 [] ∈ squash [[whA, whADash], [fileAC 1 []]] := by
  decide

/-- C3, as stated, fails: in the single layer `[.wh.a, a]` the marker for the
path `a` comes first and the real entry `a` of the same layer is then
discarded, although without the marker it is written. -/
theorem same_layer_marker_hides_later_entry :
    isWhiteout whA.header.Name = true ∧
    whiteoutTarget whA.header.Name = fileA.header.Name ∧
    isWhiteout fileA.header.Name = false ∧
    squash [[whA, fileA]] = [] ∧
    squash [[fileA]] = [fileA] := by
  decide

/-- C3, amended: an entry `m` (a whiteout marker, say) found in a layer after the
entries `pre` has no effect on the newer layers and on `pre`: what the squash
writes for them is exactly what it writes when the run ends just before `m`;
only entries read after `m` (the rest `post` of its layer, and the older
layers) can be discarded because of it. -/
theorem marker_leaves_earlier_entries (newer older : List (List Entry))
    (pre post : List Entry) (m : Entry) :
    ∃ rest, squash (newer ++ (pre ++ m :: post) :: older) = squash (newer ++ [pre]) ++ rest := by
  unfold squash
  simp only [squashLayers_eq_join, List.flatten_append, List.flatten_cons, List.flatten_nil,
    List.append_nil]
  have h : squashLayer SquashState.init (newer.flatten ++ (pre ++ m :: post ++ older.flatten))
      = squashLayer (squashLayer SquashState.init (newer.flatten ++ pre))
          (m :: post ++ older.flatten) := by
    simp only [squashLayer, List.foldl_append, List.append_assoc]
  rw [h]
  exact squashLayer_written _ _

/-- C4: the newest layer deletes `a`, the middle layer holds `a/c` with content
`new` and the marker `.wh.a-`, the oldest layer holds `a/c` with content `old`.
The output archive holds an entry `a/c`, and it is the one of the oldest layer,
not the one of the newest layer that has an entry of that name. -/
theorem squash_writes_older_version :
    names [whA] = [lit ['.', 'w', 'h', '.', 'a']] ∧
    fileAC 2 (lit ['n', 'e', 'w']) ∈ [fileAC 2 (lit ['n', 'e', 'w']), whADash] ∧
    squash [[whA], [fileAC 2 (lit ['n', 'e', 'w']), whADash], [fileAC 1 (lit ['o', 'l', 'd'])]]
      = [fileAC 1 (lit ['o', 'l', 'd'])] := by
  decide

/-- C5: whatever the layers hold, no two entries written to the output archive
by the squash loop have the same name. -/
theorem squash_names_nodup (layers : List (List Entry)) : (names (squash layers)).Nodup := by
  have h : WrittenOnce SquashState.init := by
    constructor
    · simp [SquashState.init, names]
    · intro n hn
      simp [SquashState.init, names] at hn
  exact (squashLayers_writtenOnce SquashState.init layers h).1

/-- C6, as stated, fails: with the base image `base` whose layers `[L0]` share no
prefix with the layers `[M0]` of the image, the explicit count 1 is not used;
the resolver returns the error "is not derived from". -/
theorem explicit_count_lost_on_base_failure :
    (Options.mk false baseName [] 1).LayerCount ≠ 0 ∧
    resolveLayerCount manifest4 imgName (Options.mk false baseName [] 1)
        [⟨[idL0], []⟩, ⟨[idM0], []⟩]
      = Except.error (Stop.fail (LError 169
          (GoError.errorf (Message.notDerived imgName (withTag baseName))))) := by
  constructor
  · decide
  · rfl

/-- C6, amended: with a non-zero explicit count `c`, the resolved layer count is
`c` when no base image is given, and also when a base image is given and the
base-image rule succeeds (whatever count it finds); when the base-image rule
fails, its failure is the result and `c` is not used. -/
theorem explicit_count_after_base_rule (manifest : ManifestStruct) (image : GoString)
    (opt : Options) (inspectOutput : List InspectStruct) (hc : opt.LayerCount ≠ 0) :
    (opt.BaseImage = [] →
      resolveLayerCount manifest image opt inspectOutput = Except.ok opt.LayerCount) ∧
    (∀ n, opt.BaseImage ≠ [] →
      baseImageCount image (withTag opt.BaseImage) inspectOutput = Except.ok n →
      resolveLayerCount manifest image opt inspectOutput = Except.ok opt.LayerCount) ∧
    (∀ s, opt.BaseImage ≠ [] →
      baseImageCount image (withTag opt.BaseImage) inspectOutput = Except.error s →
      resolveLayerCount manifest image opt inspectOutput = Except.error s) := by
  refine ⟨?_, ?_, ?_⟩
  · intro hb
    unfold resolveLayerCount
    rw [if_neg (by simpa using hb)]
    simp [applyLayerCount, hc]
  · intro n hb hn
    unfold resolveLayerCount
    rw [if_pos hb, hn]
    simp [applyLayerCount, hc]
  · intro s hb hs
    unfold resolveLayerCount
    rw [if_pos hb, hs]

/-- Witness of C6, amended: the explicit count 1 with the base image `base` of layers
`[L0, L1]` and an image of layers `[L0, L1, L2, L3]`. -/
theorem explicit_count_after_base_rule_witness :
    (Options.mk false baseName [] 1).LayerCount ≠ 0 ∧
    resolveLayerCount manifest4 imgName (Options.mk false baseName [] 1)
        [dockerFour (withTag baseName), dockerFour imgName]
      = Except.ok 1 :=
  ⟨by decide,
   (explicit_count_after_base_rule manifest4 imgName (Options.mk false baseName [] 1)
      [dockerFour (withTag baseName), dockerFour imgName] (by decide)).2.1 2 (by decide) rfl⟩

/-- C7: the base image has layers `[L0, L1]` and the derived image `[L0]`, so the
common prefix is the whole derived list; the walk does not stop where the
derived list ends, `layers[image][1]` is out of range and the run panics
instead of returning the error "is the same as". -/
theorem shorter_derived_list_panics :
    commonLoop [idL0] [idL0, idL1] 0 0 = none ∧
    resolveLayerCount manifest4 imgName (Options.mk false baseName [] 0)
        [⟨[idL0, idL1], []⟩, ⟨[idL0], []⟩]
      = Except.error Stop.panic := by
  constructor
  · rfl
  · rfl

/-- C8: when the base image's identifier list `base` (length `k ≥ 1`) is a strict
prefix of the derived image's list `derived` (length `n`) and no explicit count
is given, the resolver succeeds with the count `n - k`; and for a manifest
with one layer archive per identifier the squash then reads exactly the
`n - k` newest layers of the manifest, newest first. -/
theorem resolve_base_prefix_count (docker : GoString → InspectStruct) (manifest : ManifestStruct)
    (image : GoString) (opt : Options) (base derived : List GoString)
    (hbase : opt.BaseImage ≠ []) (hcount : opt.LayerCount = 0)
    (hb : (docker (withTag opt.BaseImage)).Layers = base)
    (hd : (docker image).Layers = derived)
    (hk : 1 ≤ base.length) (hpre : base <+: derived) (hlt : base.length < derived.length) :
    resolveLayerCount manifest image opt [docker (withTag opt.BaseImage), docker image]
      = Except.ok ((derived.length : Int) - (base.length : Int)) ∧
    (manifest.Layers.length = derived.length → derived.length < 2 ^ 63 →
      selectedLayers manifest ((derived.length : Int) - (base.length : Int))
        = Except.ok (manifest.Layers.drop base.length).reverse) := by
  constructor
  · have hne : withTag opt.BaseImage ≠ image := by
      intro h
      rw [h, hd] at hb
      rw [hb] at hlt
      exact lt_irrefl _ hlt
    have hine : ¬ image = withTag opt.BaseImage := fun h => hne h.symm
    have hbl : (docker (withTag opt.BaseImage)).Layers.length ≠ 0 := by rw [hb]; omega
    have hdl : (docker image).Layers.length ≠ 0 := by rw [hd]; omega
    unfold resolveLayerCount
    rw [if_pos hbase]
    have hcnt : baseImageCount image (withTag opt.BaseImage)
        [docker (withTag opt.BaseImage), docker image]
          = Except.ok ((derived.length : Int) - (base.length : Int)) := by
      unfold baseImageCount
      simp only [List.length_cons, List.length_nil, ne_eq, not_true_eq_false, if_false,
        Nat.reduceAdd]
      simp only [fillLayers, hbl, hdl, if_false, List.headI, List.tail]
      simp only [LayerMap.lookup, List.find?, hine, decide_False, decide_True, hb, hd]
      exact deriveCount_extension _ _ _ _ hk hpre hlt
    rw [hcnt]
    simp [applyLayerCount, hcount]
  · intro hm h63
    unfold selectedLayers firstLyr
    have hfirst : wrap64 ((manifest.Layers.length : Int)
        - ((derived.length : Int) - (base.length : Int))) = ((base.length : Nat) : Int) := by
      rw [hm]
      have : ((derived.length : Int) - ((derived.length : Int) - (base.length : Int)))
          = (base.length : Int) := by ring
      rw [this]
      apply wrap64_small
      · exact Int.natCast_nonneg _
      · have : (base.length : Int) < (derived.length : Int) := by exact_mod_cast hlt
        have h2 : ((derived.length : Nat) : Int) < 2 ^ 63 := by exact_mod_cast h63
        omega
    rw [hfirst, visitLayers_take_drop _ _ _ (by omega) (le_refl _), List.take_length]

/-- Witness of C8: base layers `[L0, L1]`, derived layers `[L0, L1, L2, L3]`, a
manifest of four layer archives: the resolved count is 2 and the squash reads
`l3` and `l2`. -/
theorem resolve_base_prefix_count_witness :
    resolveLayerCount manifest4 imgName (Options.mk false baseName [] 0)
        [dockerFour (withTag baseName), dockerFour imgName] = Except.ok 2 ∧
    selectedLayers manifest4 2 = Except.ok [lit ['l', '3'], lit ['l', '2']] := by
  have h := resolve_base_prefix_count dockerFour manifest4 imgName (Options.mk false baseName [] 0)
    [idL0, idL1] [idL0, idL1, idL2, idL3] (by decide) rfl rfl rfl (by decide) (by decide)
    (by decide)
  exact ⟨h.1, h.2 rfl (by norm_num)⟩

/-- C9: every step succeeds except `tarWtr.Close()` (first run) or
`tarFile.Close()` (second run), which return an error; `imageExport` builds the
wrapped error without returning it and ends with `return nil`. -/
theorem close_error_returns_nil :
    imageExport (quietEnv manifest4 (fun _ => [fileA]) [] (some (GoError.external 28)) none)
        imgName outTar (Options.mk false [] [] 0) = Returned.nil ∧
    imageExport (quietEnv manifest4 (fun _ => [fileA]) [] none (some (GoError.external 5)))
        imgName outTar (Options.mk false [] [] 0) = Returned.nil := by
  constructor
  · rfl
  · rfl

/-- C10: for any list `paths`, sorted or not, `matchPath(path, paths)` returns
true only if some element of `paths` equals `path` or is a proper prefix of it
followed by '/' in `path`; and when `paths` is the deletion index the squash
loop has built from the entries `es` read so far, that element is the path
deleted by a whiteout marker among `es`. -/
theorem matchPath_no_false_positive (path : GoString) (paths : List GoString)
    (es : List Entry) (h : matchPath path paths = true) :
    (∃ E ∈ paths, E = path ∨
      (E <+: path ∧ E.length < path.length ∧ path[E.length]? = some slash)) ∧
    (paths = (squashLayer SquashState.init es).deletedPaths →
      ∃ m ∈ es, isWhiteout m.header.Name = true ∧ masks (whiteoutTarget m.header.Name) path) := by
  obtain ⟨E, hE, hmask⟩ := matchPath_true path paths h
  refine ⟨⟨E, hE, hmask⟩, ?_⟩
  intro hp
  rw [hp] at hE
  rcases squashLayer_deleted SquashState.init es E hE with h0 | ⟨m, hm, hw, hEm⟩
  · simp [SquashState.init] at h0
  · exact ⟨m, hm, hw, hEm ▸ hmask⟩

/-- Witness of C10: after the marker `.wh.a` the index is `["a"]`, which matches `a/c`. -/
theorem matchPath_no_false_positive_witness :
    matchPath (lit ['a', '/', 'c']) [lit ['a']] = true ∧
    (∃ E ∈ [lit ['a']], E = lit ['a', '/', 'c'] ∨
      (E <+: lit ['a', '/', 'c'] ∧ E.length < (lit ['a', '/', 'c']).length ∧
        (lit ['a', '/', 'c'])[E.length]? = some slash)) ∧
    (∃ m ∈ [whA], isWhiteout m.header.Name = true ∧
      masks (whiteoutTarget m.header.Name) (lit ['a', '/', 'c'])) := by
  have h := matchPath_no_false_positive (lit ['a', '/', 'c']) [lit ['a']] [whA] (by decide)
  exact ⟨by decide, h.1, h.2 (by decide)⟩

/-- C11: `matchPath` is total. With `low`, `high` and `pos` as Go `int` values, a
run of the loop that is allowed at least `2 * len(paths) + 2` iterations ends
with a `return` (never by exhausting the iterations, never by an index out of
range in `paths[pos]` or `path[len(entry)]`), and the value returned is the same
for every such allowance; and whenever the byte `path[len(entry)]` is read,
that is when `entry` is a prefix of `path` of a different length,
`len(entry) < len(path)`. -/
theorem matchPath_total (path : GoString) (paths : List GoString) (fuel : Nat)
    (h : 2 * paths.length + 2 ≤ fuel) :
    matchPathRunInt fuel path paths = Outcome.ret (matchPath path paths) ∧
    (∀ entry, hasPrefix path entry = true → entry.length ≠ path.length →
      entry.length < path.length ∧ prefixCheck path entry ≠ none) := by
  constructor
  · rw [matchPathRunInt_eq]
    obtain ⟨more, rfl⟩ : ∃ more, fuel = 2 * paths.length + 2 + more := ⟨fuel - (2 * paths.length + 2), by omega⟩
    exact matchPathRun_mono _ _ _ _ _ (matchPathRun_eq_matchPath path paths)
  · intro entry hp hne
    exact ⟨lt_of_le_of_ne ((hasPrefix_iff _ _).mp hp).length_le hne, prefixCheck_ne_none _ _⟩

/-- Witness of C11: the query `a/c` on the index `["a", "a-"]` with 6 iterations allowed. -/
theorem matchPath_total_witness :
    2 * [lit ['a'], lit ['a', '-']].length + 2 ≤ 6 ∧
    matchPathRunInt 6 (lit ['a', '/', 'c']) [lit ['a'], lit ['a', '-']]
      = Outcome.ret (matchPath (lit ['a', '/', 'c']) [lit ['a'], lit ['a', '-']]) :=
  ⟨by decide, (matchPath_total (lit ['a', '/', 'c']) [lit ['a'], lit ['a', '-']] 6 (by decide)).1⟩

end ImageExport
